import Mathlib

/-!
# Verification of the ClassroomRecognizer detection-fusion / identity-matching engine

Shallow embedding of the fusion and matching core of the repository
(`FaceRecognitionService` and `InsightFaceService`).  Numeric values
(pixel coordinates, confidences, similarity scores) are modelled as
rationals; `Float32Array` embeddings become `List ℚ`.  The JavaScript
`NaN` produced by an out-of-bounds typed-array read is modelled as
`Option.none`, and arithmetic on it propagates `none` exactly as `NaN`
propagates.
-/

namespace ClassroomRecognizer

/-- An axis-aligned bounding box `(x, y, width, height)`,
as used by `face-api` detection boxes in the source. -/
structure Box where
  x : ℚ
  y : ℚ
  w : ℚ
  h : ℚ
deriving DecidableEq, Repr

/-- Intersection area of two boxes, clamped at zero, exactly as computed
inline in `FaceRecognitionService.getIoU`:
`Math.max(0, x2 - x1) * Math.max(0, y2 - y1)` where
`x1 = max(b1.x, b2.x)`, `x2 = min(b1.x + b1.w, b2.x + b2.w)` (same for y). -/
def interArea (b1 b2 : Box) : ℚ :=
  max 0 (min (b1.x + b1.w) (b2.x + b2.w) - max b1.x b2.x) *
    max 0 (min (b1.y + b1.h) (b2.y + b2.h) - max b1.y b2.y)

/-- Embeds `FaceRecognitionService.getIoU`: returns
`intersection / (areaA + areaB - intersection)`, and `0` when that
denominator is `0`. -/
def getIoU (b1 b2 : Box) : ℚ :=
  if b1.w * b1.h + b2.w * b2.h - interArea b1 b2 = 0 then 0
  else interArea b1 b2 / (b1.w * b1.h + b2.w * b2.h - interArea b1 b2)

/-- One detection as consumed by the fusion code: its box, its detector
confidence (`detection.score` in the source) and the `isManual` flag that
tags operator-initiated manual detections.  The fusion routines read only
the box and the score; `isManual` is carried along untouched. -/
structure Det where
  box : Box
  score : ℚ
  isManual : Bool
deriving DecidableEq, Repr

/-- Inner loop of `FaceRecognitionService.removeDuplicateDetections`:
scan the accepted list `filtered` for the first entry overlapping `d`
above `θ`; if found, keep the higher-confidence of the two in place and
stop, otherwise append `d` at the end. -/
def dedupInsert (θ : ℚ) (d : Det) : List Det → List Det
  | [] => [d]
  | a :: rest =>
    if θ < getIoU d.box a.box then
      (if a.score < d.score then d else a) :: rest
    else
      a :: dedupInsert θ d rest

/-- Embeds `FaceRecognitionService.removeDuplicateDetections`: lists of length
at most one are returned unchanged; otherwise each detection, in input
order, is inserted into the accepted list by `dedupInsert`. -/
def removeDuplicateDetections (dets : List Det) (θ : ℚ) : List Det :=
  if dets.length ≤ 1 then dets
  else dets.foldl (fun filtered d => dedupInsert θ d filtered) []

/-- One step of `FaceRecognitionService.mergeDetections`: for a stage-2
candidate `det2`, scan the stage-1 list `d1s` for the first detection
overlapping it with IoU above the fixed `0.3`; if found and the candidate
has strictly higher confidence, overwrite that detection's slot in the
accumulator (`merged.indexOf` + assignment in the source; `List.set` at
`length` is a no-op exactly like the `index > -1` guard); if found and not
higher, drop the candidate; if not found, append the candidate. -/
def mergeOne (d1s : List Det) (merged : List Det) (det2 : Det) : List Det :=
  match d1s.find? (fun det1 => decide ((3 : ℚ)/10 < getIoU det1.box det2.box)) with
  | some det1 =>
      if det1.score < det2.score then merged.set (merged.indexOf det1) det2
      else merged
  | none => merged ++ [det2]

/-- Embeds `FaceRecognitionService.mergeDetections`: start from the stage-1 list
and fold the stage-2 list through `mergeOne`. -/
def mergeDetections (d1s d2s : List Det) : List Det :=
  d2s.foldl (mergeOne d1s) d1s

/-- The fusion portion of `FaceRecognitionService.detectAndRecognize`:
merge the two automatic passes, append the manual detections last, then
run the final IoU deduplication with the caller-supplied `iouThreshold`. -/
def fuseFrameDetections (stage1 stage2 manual : List Det) (θ : ℚ) : List Det :=
  removeDuplicateDetections (mergeDetections stage1 stage2 ++ manual) θ

/-- Embeds `FaceRecognitionService.computeCosineSimilarity`: a plain dot product,
looping `i` over `descriptor1.length`.  A read of `descriptor2[i]` past its
end yields `undefined` in JavaScript, so the accumulated sum becomes `NaN`;
`none` models that `NaN`.  Components of `descriptor2` beyond
`descriptor1.length` are silently ignored. -/
def computeCosineSimilarity : List ℚ → List ℚ → Option ℚ
  | [], _ => some 0
  | _ :: _, [] => none
  | x :: xs, y :: ys => (computeCosineSimilarity xs ys).map (fun r => x * y + r)

/-- The label sentinel the source uses for an unmatched detection
(the string literal `'unknown'`). -/
def unmatchedLabel : String := "unknown"

/-- One gallery entry (`window.faceapi.LabeledFaceDescriptors`): a student
name and that student's enrolled reference embeddings. -/
structure LabeledDescriptors where
  label : String
  descriptors : List (List ℚ)
deriving DecidableEq, Repr

/-- One element of the result array of
`FaceRecognitionService.findBestMatchesForFrame`. -/
structure MatchResult where
  label : String
  score : ℚ
  descriptor : List ℚ
deriving DecidableEq, Repr

/-- Innermost loop of `findBestMatchesForFrame`: fold one gallery entry's
reference descriptors through the running `(maxSimilarity, best)` state.
`best` records the entry's label together with its position `idx` in the
available list (standing for the `bestLabeledDesc` object reference held
by the source).  A `NaN` similarity (`none`) never passes the
`similarity > maxSimilarity` test, exactly as in JavaScript. -/
def scanDescriptors (q : List ℚ) (lab : String) (idx : Nat)
    (st : ℚ × Option (String × Nat)) (ds : List (List ℚ)) :
    ℚ × Option (String × Nat) :=
  ds.foldl
    (fun st d =>
      match computeCosineSimilarity q d with
      | some s => if st.1 < s then (s, some (lab, idx)) else st
      | none => st)
    st

/-- Middle loop of `findBestMatchesForFrame`: walk the available gallery
entries (carrying their positions) updating the `(maxSimilarity, best)`
state, which starts at `(-1, null)`. -/
def findBestFrom (q : List ℚ) : Nat → (ℚ × Option (String × Nat)) →
    List LabeledDescriptors → ℚ × Option (String × Nat)
  | _, st, [] => st
  | i, st, ld :: rest =>
      findBestFrom q (i + 1) (scanDescriptors q ld.label i st ld.descriptors) rest

/-- Best available gallery match for one query descriptor. -/
def findBestAvailable (q : List ℚ) (avail : List LabeledDescriptors) :
    ℚ × Option (String × Nat) :=
  findBestFrom q 0 (-1, none) avail

/-- Outer loop of `findBestMatchesForFrame`: one result per query
descriptor, in order.  A matched entry is spliced out of the available
pool (the source's `availableLabeledDescriptors.splice(index, 1)`);
otherwise the `'unknown'` sentinel with score `0` is emitted. -/
def matchLoop : List (List ℚ) → List LabeledDescriptors → List MatchResult
  | [], _ => []
  | q :: rest, avail =>
    match findBestAvailable q avail with
    | (s, some (lab, idx)) => ⟨lab, s, q⟩ :: matchLoop rest (avail.eraseIdx idx)
    | (_, none) => ⟨unmatchedLabel, 0, q⟩ :: matchLoop rest avail

/-- Embeds `FaceRecognitionService.findBestMatchesForFrame`: gallery entries whose
label is in the caller's `usedLabels` set are filtered out up front, then
each detection descriptor is greedily assigned by `matchLoop`. -/
def findBestMatchesForFrame (descriptors : List (List ℚ))
    (gallery : List LabeledDescriptors) (usedLabels : List String) :
    List MatchResult :=
  matchLoop descriptors (gallery.filter (fun ld => !(usedLabels.contains ld.label)))

/-! ## Basic structural lemmas about the matcher -/

/-- Each step of `matchLoop` emits exactly one result, carrying the query
descriptor it was invoked on. -/
lemma matchLoop_map_descriptor (descs : List (List ℚ)) :
    ∀ avail, (matchLoop descs avail).map (fun r => r.descriptor) = descs := by
  induction descs with
  | nil => intro avail; simp [matchLoop]
  | cons q rest ih =>
    intro avail
    rcases h : findBestAvailable q avail with ⟨s, b⟩
    cases b with
    | none => simp [matchLoop, h, ih]
    | some p => rcases p with ⟨lab, idx⟩; simp [matchLoop, h, ih]

/-- With no gallery entries available, every query descriptor is assigned
the sentinel with score `0`. -/
lemma matchLoop_nil_gallery (descs : List (List ℚ)) :
    matchLoop descs [] =
      descs.map (fun d => ⟨unmatchedLabel, 0, d⟩) := by
  induction descs with
  | nil => simp [matchLoop]
  | cons q rest ih =>
    have hb : findBestAvailable q [] = (-1, none) := rfl
    simp [matchLoop, hb, ih]

/-! ## C10: the matcher preserves the detection list -/

/-- C10: for every input list of detection embeddings and every gallery,
`findBestMatchesForFrame` returns one result per detection, in input
order, the i-th result carrying the i-th input embedding; none is dropped
or duplicated. -/
theorem C10_matcher_preserves_detections (descriptors : List (List ℚ))
    (gallery : List LabeledDescriptors) (usedLabels : List String) :
    (findBestMatchesForFrame descriptors gallery usedLabels).length =
        descriptors.length ∧
    (findBestMatchesForFrame descriptors gallery usedLabels).map
        (fun r => r.descriptor) = descriptors := by
  have hmap := matchLoop_map_descriptor descriptors
    (gallery.filter (fun ld => !(usedLabels.contains ld.label)))
  refine ⟨?_, hmap⟩
  have := congrArg List.length hmap
  simpa [findBestMatchesForFrame] using this

/-! ## C5: empty gallery yields all-unmatched results, never an error -/

/-- C5: on any non-empty detection list and an empty gallery, the matcher
returns one result per detection, each labeled with the `'unknown'`
sentinel and score `0`.  (The operation is a total function, so no error
can be raised.) -/
theorem C5_empty_gallery_all_unmatched (descriptors : List (List ℚ))
    (usedLabels : List String) (_hne : descriptors ≠ []) :
    findBestMatchesForFrame descriptors [] usedLabels =
      descriptors.map (fun d => ⟨unmatchedLabel, 0, d⟩) := by
  unfold findBestMatchesForFrame
  simp [matchLoop_nil_gallery]

/-- Witness for C5 at the concrete input `[[1]]` with no used labels. -/
theorem C5_empty_gallery_all_unmatched_witness :
    findBestMatchesForFrame [[(1 : ℚ)]] [] [] =
      [⟨unmatchedLabel, 0, [(1 : ℚ)]⟩] := by
  rw [C5_empty_gallery_all_unmatched [[(1 : ℚ)]] [] (by simp)]
  simp

/-! ## Geometric lemmas about `getIoU` -/

lemma interArea_nonneg (b1 b2 : Box) : 0 ≤ interArea b1 b2 :=
  mul_nonneg (le_max_left _ _) (le_max_left _ _)

lemma interArea_comm (b1 b2 : Box) : interArea b1 b2 = interArea b2 b1 := by
  rw [interArea, interArea, max_comm b1.x b2.x, max_comm b1.y b2.y,
    min_comm (b1.x + b1.w) (b2.x + b2.w), min_comm (b1.y + b1.h) (b2.y + b2.h)]

lemma interArea_le_area1 (b1 b2 : Box) (h1 : 0 ≤ b1.w) (h2 : 0 ≤ b1.h) :
    interArea b1 b2 ≤ b1.w * b1.h := by
  unfold interArea
  have hw : max 0 (min (b1.x + b1.w) (b2.x + b2.w) - max b1.x b2.x) ≤ b1.w := by
    apply max_le h1
    have hmin := min_le_left (b1.x + b1.w) (b2.x + b2.w)
    have hmax := le_max_left b1.x b2.x
    linarith
  have hh : max 0 (min (b1.y + b1.h) (b2.y + b2.h) - max b1.y b2.y) ≤ b1.h := by
    apply max_le h2
    have hmin := min_le_left (b1.y + b1.h) (b2.y + b2.h)
    have hmax := le_max_left b1.y b2.y
    linarith
  exact mul_le_mul hw hh (le_max_left _ _) h1

lemma getIoU_comm (b1 b2 : Box) : getIoU b1 b2 = getIoU b2 b1 := by
  unfold getIoU
  rw [interArea_comm b1 b2, add_comm (b1.w * b1.h) (b2.w * b2.h)]

lemma getIoU_self (b : Box) (hw : 0 < b.w) (hh : 0 < b.h) : getIoU b b = 1 := by
  have hinter : interArea b b = b.w * b.h := by
    simp [interArea, min_self, max_self, add_sub_cancel_left,
      max_eq_right hw.le, max_eq_right hh.le]
  have harea : 0 < b.w * b.h := mul_pos hw hh
  have hden : b.w * b.h + b.w * b.h - b.w * b.h = b.w * b.h := by ring
  rw [getIoU, hinter, hden, if_neg harea.ne', div_self harea.ne']

lemma getIoU_zero_of_interArea_zero (b1 b2 : Box) (h : interArea b1 b2 = 0) :
    getIoU b1 b2 = 0 := by
  rw [getIoU, h]
  split <;> simp

/-! ## C8: IoU range, identity, disjointness and degenerate boxes -/

/-- C8: for rectangles with positive width and height, `getIoU` lies in
`[0, 1]`; `getIoU a a = 1` for a non-degenerate rectangle; `getIoU a b = 0`
when the rectangles do not overlap; and two zero-area boxes (zero
denominator) give `0` rather than an error (`getIoU` is total). -/
theorem C8_iou_properties (a b : Box) :
    (0 < a.w → 0 < a.h → getIoU a a = 1) ∧
    (0 < a.w → 0 < a.h → 0 < b.w → 0 < b.h →
      0 ≤ getIoU a b ∧ getIoU a b ≤ 1) ∧
    (a.x + a.w ≤ b.x ∨ b.x + b.w ≤ a.x ∨ a.y + a.h ≤ b.y ∨ b.y + b.h ≤ a.y →
      getIoU a b = 0) ∧
    (0 ≤ a.w → 0 ≤ a.h → a.w * a.h = 0 → b.w * b.h = 0 → getIoU a b = 0) := by
  refine ⟨fun hw hh => getIoU_self a hw hh, ?_, ?_, ?_⟩
  · intro haw hah hbw hbh
    have hI0 := interArea_nonneg a b
    have hIa := interArea_le_area1 a b haw.le hah.le
    have hIb : interArea a b ≤ b.w * b.h := by
      rw [interArea_comm]; exact interArea_le_area1 b a hbw.le hbh.le
    have hBpos : 0 < b.w * b.h := mul_pos hbw hbh
    have hden : 0 < a.w * a.h + b.w * b.h - interArea a b := by linarith
    rw [getIoU, if_neg hden.ne']
    exact ⟨div_nonneg hI0 hden.le, (div_le_one hden).mpr (by linarith)⟩
  · intro hdisj
    apply getIoU_zero_of_interArea_zero
    unfold interArea
    rcases hdisj with hc | hc | hc | hc
    · have hx : min (a.x + a.w) (b.x + b.w) - max a.x b.x ≤ 0 := by
        have h1 := min_le_left (a.x + a.w) (b.x + b.w)
        have h2 := le_max_right a.x b.x
        linarith
      rw [max_eq_left hx, zero_mul]
    · have hx : min (a.x + a.w) (b.x + b.w) - max a.x b.x ≤ 0 := by
        have h1 := min_le_right (a.x + a.w) (b.x + b.w)
        have h2 := le_max_left a.x b.x
        linarith
      rw [max_eq_left hx, zero_mul]
    · have hy : min (a.y + a.h) (b.y + b.h) - max a.y b.y ≤ 0 := by
        have h1 := min_le_left (a.y + a.h) (b.y + b.h)
        have h2 := le_max_right a.y b.y
        linarith
      rw [max_eq_left hy, mul_zero]
    · have hy : min (a.y + a.h) (b.y + b.h) - max a.y b.y ≤ 0 := by
        have h1 := min_le_right (a.y + a.h) (b.y + b.h)
        have h2 := le_max_left a.y b.y
        linarith
      rw [max_eq_left hy, mul_zero]
  · intro haw hah hA hB
    have hI : interArea a b = 0 :=
      le_antisymm (hA ▸ interArea_le_area1 a b haw hah) (interArea_nonneg a b)
    rw [getIoU, hI, hA, hB]
    simp

/-- Witness for C8: the four parts at explicit rectangles
(a unit square with itself; two overlapping `1×3` boxes; two far-apart
unit squares; two degenerate zero-area boxes). -/
theorem C8_iou_properties_witness :
    getIoU ⟨0, 0, 1, 1⟩ ⟨0, 0, 1, 1⟩ = 1 ∧
    (0 ≤ getIoU ⟨0, 0, 1, 3⟩ ⟨0, 1, 1, 3⟩ ∧ getIoU ⟨0, 0, 1, 3⟩ ⟨0, 1, 1, 3⟩ ≤ 1) ∧
    getIoU ⟨0, 0, 1, 1⟩ ⟨5, 5, 1, 1⟩ = 0 ∧
    getIoU ⟨0, 0, 0, 1⟩ ⟨3, 3, 1, 0⟩ = 0 := by
  refine ⟨(C8_iou_properties ⟨0, 0, 1, 1⟩ ⟨0, 0, 1, 1⟩).1 (by norm_num) (by norm_num),
    (C8_iou_properties ⟨0, 0, 1, 3⟩ ⟨0, 1, 1, 3⟩).2.1
      (by norm_num) (by norm_num) (by norm_num) (by norm_num),
    (C8_iou_properties ⟨0, 0, 1, 1⟩ ⟨5, 5, 1, 1⟩).2.2.1 (by norm_num),
    (C8_iou_properties ⟨0, 0, 0, 1⟩ ⟨3, 3, 1, 0⟩).2.2.2
      (by norm_num) (by norm_num) (by norm_num) (by norm_num)⟩

/-! ## C6: overlapping pair keeps the higher-confidence detection -/

/-- C6: whenever two detections overlap above the deduplication threshold,
the one with strictly higher confidence survives and the other is dropped,
in either input order.  In particular (witness below) two detections with
`iou = 0.5` and confidences `0.4` and `0.9` under `iouThreshold = 0.3`
fuse to exactly the `0.9` detection. -/
theorem C6_overlap_keeps_higher_confidence (a b : Det) (θ : ℚ)
    (hiou : θ < getIoU a.box b.box) (hconf : a.score < b.score) :
    removeDuplicateDetections [a, b] θ = [b] ∧
    removeDuplicateDetections [b, a] θ = [b] := by
  have hba : θ < getIoU b.box a.box := by rwa [getIoU_comm]
  have hnot : ¬ b.score < a.score := lt_asymm hconf
  constructor
  · simp [removeDuplicateDetections, dedupInsert, hba, hconf]
  · simp [removeDuplicateDetections, dedupInsert, hiou, hnot]

/-- Witness for C6: boxes with `iou = 1/2`, confidences `2/5` and `9/10`,
threshold `3/10`. -/
theorem C6_overlap_keeps_higher_confidence_witness :
    removeDuplicateDetections
        [⟨⟨0, 0, 1, 3⟩, 2/5, false⟩, ⟨⟨0, 1, 1, 3⟩, 9/10, false⟩] (3/10) =
      [⟨⟨0, 1, 1, 3⟩, 9/10, false⟩] ∧
    removeDuplicateDetections
        [⟨⟨0, 1, 1, 3⟩, 9/10, false⟩, ⟨⟨0, 0, 1, 3⟩, 2/5, false⟩] (3/10) =
      [⟨⟨0, 1, 1, 3⟩, 9/10, false⟩] :=
  C6_overlap_keeps_higher_confidence
    ⟨⟨0, 0, 1, 3⟩, 2/5, false⟩ ⟨⟨0, 1, 1, 3⟩, 9/10, false⟩ (3/10)
    (by norm_num [getIoU, interArea]) (by norm_num)

/-! ## C3: manual detections versus the final deduplication pass -/

lemma dedupInsert_mem_sub (θ : ℚ) (d : Det) (F : List Det) :
    ∀ x ∈ dedupInsert θ d F, x = d ∨ x ∈ F := by
  induction F with
  | nil => intro x hx; simp [dedupInsert] at hx; exact Or.inl hx
  | cons a rest ih =>
    intro x hx
    rw [dedupInsert] at hx
    by_cases hov : θ < getIoU d.box a.box
    · rw [if_pos hov] at hx
      rcases List.mem_cons.mp hx with hx | hx
      · by_cases hs : a.score < d.score
        · rw [if_pos hs] at hx; exact Or.inl hx
        · rw [if_neg hs] at hx; exact Or.inr (hx ▸ List.mem_cons_self a rest)
      · exact Or.inr (List.mem_cons_of_mem a hx)
    · rw [if_neg hov] at hx
      rcases List.mem_cons.mp hx with hx | hx
      · exact Or.inr (hx ▸ List.mem_cons_self a rest)
      · rcases ih x hx with h | h
        · exact Or.inl h
        · exact Or.inr (List.mem_cons_of_mem a h)

lemma foldl_dedup_mem_sub (θ : ℚ) (l : List Det) :
    ∀ (F : List Det), ∀ x ∈ l.foldl (fun f d => dedupInsert θ d f) F,
      x ∈ F ∨ x ∈ l := by
  induction l with
  | nil => intro F x hx; exact Or.inl hx
  | cons d rest ih =>
    intro F x hx
    rw [List.foldl_cons] at hx
    rcases ih (dedupInsert θ d F) x hx with h | h
    · rcases dedupInsert_mem_sub θ d F x h with h | h
      · exact Or.inr (h ▸ List.mem_cons_self d rest)
      · exact Or.inl h
    · exact Or.inr (List.mem_cons_of_mem d h)

lemma dedupInsert_self_mem (θ : ℚ) (m : Det) (F : List Det)
    (h : ∀ a ∈ F, θ < getIoU m.box a.box → a.score < m.score) :
    m ∈ dedupInsert θ m F := by
  induction F with
  | nil => simp [dedupInsert]
  | cons a rest ih =>
    rw [dedupInsert]
    by_cases hov : θ < getIoU m.box a.box
    · rw [if_pos hov, if_pos (h a (List.mem_cons_self a rest) hov)]
      exact List.mem_cons_self m rest
    · rw [if_neg hov]
      exact List.mem_cons_of_mem a
        (ih (fun a' ha' hov' => h a' (List.mem_cons_of_mem a ha') hov'))

lemma mem_removeDuplicate_append_last (L : List Det) (m : Det) (θ : ℚ)
    (h : ∀ a ∈ L, θ < getIoU m.box a.box → a.score < m.score) :
    m ∈ removeDuplicateDetections (L ++ [m]) θ := by
  cases L with
  | nil => simp [removeDuplicateDetections]
  | cons x xs =>
    have hlen : ¬((x :: xs ++ [m]).length ≤ 1) := by simp
    rw [removeDuplicateDetections, if_neg hlen, List.foldl_append,
      List.foldl_cons, List.foldl_nil]
    apply dedupInsert_self_mem
    intro a ha hov
    rcases foldl_dedup_mem_sub θ (x :: xs) [] a ha with h' | h'
    · simp at h'
    · exact h a h' hov

/-- Counterexample to C3: a manual-origin detection whose confidence
(`0.4`) is below that of an overlapping automatic detection (`0.9`) is
dropped by the final deduplication pass of the fusion run. -/
theorem C3_counterexample :
    (⟨⟨0, 0, 1, 1⟩, 4/10, true⟩ : Det) ∉
      fuseFrameDetections [⟨⟨0, 0, 1, 1⟩, 9/10, false⟩] []
        [⟨⟨0, 0, 1, 1⟩, 4/10, true⟩] (3/10) := by
  norm_num [fuseFrameDetections, mergeDetections, mergeOne,
    removeDuplicateDetections, dedupInsert, getIoU, interArea]

/-- C3 as amended: fusion appends manual detections last but the final
deduplication treats them uniformly by confidence, so a manual-origin
detection is guaranteed to appear in the fused output only when its
confidence strictly exceeds that of every merged automatic (or earlier
manual) detection overlapping it above the `iouThreshold`; with equal or
lower confidence it can be dropped (see the counterexample). -/
theorem C3_amended_manual_survives_iff_strictly_higher
    (stage1 stage2 ms : List Det) (m : Det) (θ : ℚ)
    (h : ∀ a ∈ mergeDetections stage1 stage2 ++ ms,
      θ < getIoU m.box a.box → a.score < m.score) :
    m ∈ fuseFrameDetections stage1 stage2 (ms ++ [m]) θ := by
  rw [fuseFrameDetections, ← List.append_assoc]
  exact mem_removeDuplicate_append_last (mergeDetections stage1 stage2 ++ ms) m θ h

/-- Witness for the amended C3: a manual detection with strictly higher
confidence (`0.9`) than the overlapping automatic one (`0.4`) survives. -/
theorem C3_amended_manual_survives_witness :
    (⟨⟨0, 0, 1, 1⟩, 9/10, true⟩ : Det) ∈
      fuseFrameDetections [⟨⟨0, 0, 1, 1⟩, 4/10, false⟩] []
        ([] ++ [⟨⟨0, 0, 1, 1⟩, 9/10, true⟩]) (3/10) := by
  apply C3_amended_manual_survives_iff_strictly_higher
  intro a ha hov
  simp [mergeDetections] at ha
  rw [ha]
  norm_num

/-! ## C7: self-fusion -/

lemma find?_first_overlap (m : Det) :
    ∀ L : List Det, m ∈ L →
    (∀ d ∈ L, 0 < d.box.w ∧ 0 < d.box.h) →
    L.Pairwise (fun a b => getIoU a.box b.box ≤ 3/10) →
    L.find? (fun det1 => decide ((3 : ℚ)/10 < getIoU det1.box m.box)) = some m := by
  intro L
  induction L with
  | nil => simp
  | cons a rest ih =>
    intro hm hdim hpair
    rcases List.mem_cons.mp hm with he | hm'
    · subst he
      have hd := hdim m (List.mem_cons_self m rest)
      have hIoU : getIoU m.box m.box = 1 := getIoU_self m.box hd.1 hd.2
      apply List.find?_cons_of_pos
      simp only [decide_eq_true_eq, hIoU]
      norm_num
    · have hrel := (List.pairwise_cons.mp hpair).1 m hm'
      have hp : ¬((3 : ℚ)/10 < getIoU a.box m.box) := not_lt.mpr hrel
      rw [List.find?_cons_of_neg _ (by simpa using hp)]
      exact ih hm' (fun d hd => hdim d (List.mem_cons_of_mem a hd))
        (List.pairwise_cons.mp hpair).2

lemma mergeOne_self_mem (L : List Det) (m : Det) (hm : m ∈ L)
    (hdim : ∀ d ∈ L, 0 < d.box.w ∧ 0 < d.box.h)
    (hpair : L.Pairwise (fun a b => getIoU a.box b.box ≤ 3/10)) :
    mergeOne L L m = L := by
  rw [mergeOne, find?_first_overlap m L hm hdim hpair]
  simp [lt_irrefl]

lemma mergeDetections_self (L : List Det)
    (hdim : ∀ d ∈ L, 0 < d.box.w ∧ 0 < d.box.h)
    (hpair : L.Pairwise (fun a b => getIoU a.box b.box ≤ 3/10)) :
    mergeDetections L L = L := by
  rw [mergeDetections]
  have main : ∀ l2 : List Det, (∀ x ∈ l2, x ∈ L) → l2.foldl (mergeOne L) L = L := by
    intro l2
    induction l2 with
    | nil => intro _; simp
    | cons x xs ih =>
      intro hsub
      rw [List.foldl_cons,
        mergeOne_self_mem L x (hsub x (List.mem_cons_self x xs)) hdim hpair]
      exact ih (fun y hy => hsub y (List.mem_cons_of_mem x hy))
  exact main L (fun x hx => hx)

lemma dedupInsert_no_overlap (θ : ℚ) (d : Det) (F : List Det)
    (h : ∀ a ∈ F, ¬ θ < getIoU d.box a.box) :
    dedupInsert θ d F = F ++ [d] := by
  induction F with
  | nil => simp [dedupInsert]
  | cons a rest ih =>
    rw [dedupInsert, if_neg (h a (List.mem_cons_self a rest)),
      ih (fun a' ha' => h a' (List.mem_cons_of_mem a ha'))]
    simp

lemma foldl_dedup_no_overlap (θ : ℚ) :
    ∀ (l F : List Det),
    (∀ d ∈ l, ∀ a ∈ F, getIoU d.box a.box ≤ θ) →
    l.Pairwise (fun a b => getIoU b.box a.box ≤ θ) →
    l.foldl (fun f d => dedupInsert θ d f) F = F ++ l := by
  intro l
  induction l with
  | nil => intro F _ _; simp
  | cons d rest ih =>
    intro F hF hpair
    rw [List.foldl_cons, dedupInsert_no_overlap θ d F
      (fun a ha => not_lt.mpr (hF d (List.mem_cons_self d rest) a ha))]
    rw [ih (F ++ [d]) ?_ (List.pairwise_cons.mp hpair).2]
    · simp
    · intro d' hd' a ha
      rcases List.mem_append.mp ha with ha | ha
      · exact hF d' (List.mem_cons_of_mem d hd') a ha
      · have hda : a = d := by simpa using ha
        rw [hda]
        exact (List.pairwise_cons.mp hpair).1 d' hd'

lemma removeDuplicate_pairwise_noop (L : List Det) (θ : ℚ)
    (hpair : L.Pairwise (fun a b => getIoU b.box a.box ≤ θ)) :
    removeDuplicateDetections L θ = L := by
  rw [removeDuplicateDetections]
  split
  · rfl
  · rw [foldl_dedup_no_overlap θ L [] (by simp) hpair]
    simp

/-- Counterexample to C7: a list that itself contains an internal
duplicate is not a fixed point of self-fusion — the two copies of the same
box collapse to one, so the output differs from the input in count. -/
theorem C7_counterexample :
    fuseFrameDetections
        [⟨⟨0, 0, 1, 1⟩, 9/10, false⟩, ⟨⟨0, 0, 1, 1⟩, 4/10, false⟩]
        [⟨⟨0, 0, 1, 1⟩, 9/10, false⟩, ⟨⟨0, 0, 1, 1⟩, 4/10, false⟩] [] (3/10) ≠
      [⟨⟨0, 0, 1, 1⟩, 9/10, false⟩, ⟨⟨0, 0, 1, 1⟩, 4/10, false⟩] := by
  norm_num [fuseFrameDetections, mergeDetections, mergeOne, List.find?,
    removeDuplicateDetections, dedupInsert, getIoU, interArea, List.indexOf,
    List.findIdx, List.findIdx.go]

/-- C7 as amended: self-fusion is the identity on lists that are already
deduplicated — every detection has a positive-area box (so it overlaps
itself) and distinct detections pairwise overlap at most `0.3` (the fixed
merge threshold) and at most the caller's `iouThreshold`.  For lists with
internal duplicates the property fails (see the counterexample). -/
theorem C7_amended_self_fusion_identity (L : List Det) (θ : ℚ)
    (hdim : ∀ d ∈ L, 0 < d.box.w ∧ 0 < d.box.h)
    (hpair : L.Pairwise
      (fun a b => getIoU a.box b.box ≤ 3/10 ∧ getIoU a.box b.box ≤ θ)) :
    fuseFrameDetections L L [] θ = L := by
  have hpair1 : L.Pairwise (fun a b => getIoU a.box b.box ≤ 3/10) :=
    hpair.imp (fun h => h.1)
  have hpair2 : L.Pairwise (fun a b => getIoU b.box a.box ≤ θ) :=
    hpair.imp (fun h => by rw [getIoU_comm]; exact h.2)
  rw [fuseFrameDetections, List.append_nil, mergeDetections_self L hdim hpair1,
    removeDuplicate_pairwise_noop L θ hpair2]

/-- Witness for the amended C7: two far-apart unit squares fused with
themselves at threshold `0.3` come back unchanged. -/
theorem C7_amended_self_fusion_identity_witness :
    fuseFrameDetections
        [⟨⟨0, 0, 1, 1⟩, 1/2, false⟩, ⟨⟨10, 10, 1, 1⟩, 1/2, false⟩]
        [⟨⟨0, 0, 1, 1⟩, 1/2, false⟩, ⟨⟨10, 10, 1, 1⟩, 1/2, false⟩] [] (3/10) =
      [⟨⟨0, 0, 1, 1⟩, 1/2, false⟩, ⟨⟨10, 10, 1, 1⟩, 1/2, false⟩] := by
  apply C7_amended_self_fusion_identity
  · intro d hd
    rcases List.mem_cons.mp hd with h | h
    · rw [h]; norm_num
    · have : d = ⟨⟨10, 10, 1, 1⟩, 1/2, false⟩ := by simpa using h
      rw [this]; norm_num
  · refine List.Pairwise.cons ?_ (List.Pairwise.cons (by simp) List.Pairwise.nil)
    intro b hb
    have : b = ⟨⟨10, 10, 1, 1⟩, 1/2, false⟩ := by simpa using hb
    rw [this]
    norm_num [getIoU, interArea]

/-! ## C4: behaviour on dimensionality mismatch -/

/-- Dot product of the common prefix of two vectors (`List.zipWith`
truncates to the shorter operand, i.e. to `u` against `v.take u.length`). -/
def dotQ (u v : List ℚ) : ℚ := (List.zipWith (· * ·) u v).sum

lemma computeCosineSimilarity_of_le (u : List ℚ) :
    ∀ v : List ℚ, u.length ≤ v.length →
      computeCosineSimilarity u v = some (dotQ u v) := by
  induction u with
  | nil => intro v _; simp [computeCosineSimilarity, dotQ]
  | cons x xs ih =>
    intro v hlen
    cases v with
    | nil => simp at hlen
    | cons y ys =>
      have h := ih ys (by simpa using hlen)
      simp [computeCosineSimilarity, h, dotQ]

lemma computeCosineSimilarity_of_short (u : List ℚ) :
    ∀ v : List ℚ, v.length < u.length → computeCosineSimilarity u v = none := by
  induction u with
  | nil => intro v hv; simp at hv
  | cons x xs ih =>
    intro v hlen
    cases v with
    | nil => rfl
    | cons y ys =>
      have h := ih ys (by simpa using hlen)
      simp [computeCosineSimilarity, h]

/-- Counterexample to C4: a query of dimension 1 against a reference of
dimension 2 does not fail — the extra reference component is silently
ignored, and the result coincides with the dimension-1 computation
(silent truncation, the very behaviour the claim rules out). -/
theorem C4_counterexample :
    computeCosineSimilarity [(1 : ℚ)] [1, 5] = some 1 ∧
    computeCosineSimilarity [(1 : ℚ)] [1] = some 1 := by
  norm_num [computeCosineSimilarity]

/-- C4 as amended: the similarity computation performs no dimensionality
validation and raises no error.  When the reference vector is at least as
long as the query, the surplus components are silently ignored
(truncation to the query's length); when it is shorter, the JavaScript
result is `NaN` (modelled as `none`) — never a descriptive error. -/
theorem C4_amended_no_dimension_check (u v : List ℚ) :
    (u.length ≤ v.length → computeCosineSimilarity u v = some (dotQ u v)) ∧
    (v.length < u.length → computeCosineSimilarity u v = none) :=
  ⟨computeCosineSimilarity_of_le u v, computeCosineSimilarity_of_short u v⟩

/-- Witness for the amended C4 at concrete mismatched dimensions. -/
theorem C4_amended_no_dimension_check_witness :
    computeCosineSimilarity [(1 : ℚ)] [1, 5] = some (dotQ [(1 : ℚ)] [1, 5]) ∧
    computeCosineSimilarity [(1 : ℚ), 2] [3] = none :=
  ⟨(C4_amended_no_dimension_check [(1 : ℚ)] [1, 5]).1 (by norm_num),
   (C4_amended_no_dimension_check [(1 : ℚ), 2] [3]).2 (by norm_num)⟩

/-! ## C2: the similarity score of the matcher -/

/-- Sum of squares of a vector's components (the squared Euclidean norm). -/
def sumSqR (l : List ℝ) : ℝ := (l.map (fun x => x * x)).sum

/-- Dot product over ℝ (truncating to the shorter operand). -/
def dotR (u v : List ℝ) : ℝ := (List.zipWith (· * ·) u v).sum

/-- Embeds `InsightFaceService.computeCosineSimilarity`: accumulates `dotProduct`,
`norm1` and `norm2` over `i < descriptor1.length`, returns `0` when either
accumulated squared norm is `0`, and otherwise
`dotProduct / (Math.sqrt(norm1) * Math.sqrt(norm2))`.  The loop bound
means `norm2` sums only the first `descriptor1.length` components of
`descriptor2`, hence the `take`; for a `descriptor2` shorter than
`descriptor1` the source produces `NaN` (that regime is modelled by the
`Option`-valued `computeCosineSimilarity` above). -/
noncomputable def insightCosineSimilarity (u v : List ℝ) : ℝ :=
  if sumSqR u = 0 ∨ sumSqR (v.take u.length) = 0 then 0
  else dotR u v / (Real.sqrt (sumSqR u) * Real.sqrt (sumSqR (v.take u.length)))

lemma sumSqR_nonneg (l : List ℝ) : 0 ≤ sumSqR l := by
  apply List.sum_nonneg
  intro x hx
  rcases List.mem_map.mp hx with ⟨y, _, rfl⟩
  exact mul_self_nonneg y

/-- Cauchy–Schwarz for list dot products, by induction on the vectors. -/
lemma dotR_sq_le (u : List ℝ) :
    ∀ v : List ℝ, (dotR u v)^2 ≤ sumSqR u * sumSqR v := by
  induction u with
  | nil => intro v; simp [dotR, sumSqR]
  | cons x xs ih =>
    intro v
    cases v with
    | nil => simp [dotR, sumSqR]
    | cons y ys =>
      have h := ih ys
      have hA := sumSqR_nonneg xs
      have hB := sumSqR_nonneg ys
      simp only [dotR, sumSqR, List.zipWith_cons_cons, List.map_cons,
        List.sum_cons] at h hA hB ⊢
      set d := (List.zipWith (fun a b => a * b) xs ys).sum with hd
      set A := (xs.map (fun t => t * t)).sum with hAdef
      set B := (ys.map (fun t => t * t)).sum with hBdef
      rcases eq_or_lt_of_le hA with hA0 | hA0
      · have hdz : d = 0 := by nlinarith [h]
        rw [hdz, ← hA0]
        nlinarith [mul_nonneg (mul_self_nonneg x) hB]
      · nlinarith [sq_nonneg (x * d - y * A), h, sq_nonneg x]

/-- Counterexample to C2: the frame matcher
(`FaceRecognitionService.computeCosineSimilarity`) on the non-unit-norm
pair `u = v = [2]` yields the raw dot product `4` — outside `[-1, 1]` —
whereas the normalized cosine of that pair is `1`. -/
theorem C2_counterexample :
    computeCosineSimilarity [(2 : ℚ)] [2] = some 4 ∧
    insightCosineSimilarity [(2 : ℝ)] [2] = 1 ∧ ¬((4 : ℚ) ≤ 1) := by
  refine ⟨by norm_num [computeCosineSimilarity], ?_, by norm_num⟩
  have h4 : Real.sqrt 4 = 2 := by
    rw [show (4 : ℝ) = 2^2 by norm_num, Real.sqrt_sq (by norm_num : (0:ℝ) ≤ 2)]
  have htake : ([2] : List ℝ).take ([2] : List ℝ).length = [2] := rfl
  rw [insightCosineSimilarity, htake]
  norm_num [sumSqR, dotR, h4]

/-- C2 as amended: the frame matcher computes the raw dot product of the
two vectors (the cosine only under the unit-norm assumption its source
comment documents), while `InsightFaceService.computeCosineSimilarity`
does compute `(u·v)/(‖u‖·‖v‖)` on equal-length vectors, returns `0` when
either norm is `0`, and always lies in `[-1, 1]`. -/
theorem C2_amended_similarity_scores :
    (∀ u v : List ℝ, u.length = v.length →
      (sumSqR u ≠ 0 ∧ sumSqR v ≠ 0 →
        insightCosineSimilarity u v =
          dotR u v / (Real.sqrt (sumSqR u) * Real.sqrt (sumSqR v))) ∧
      (sumSqR u = 0 ∨ sumSqR v = 0 → insightCosineSimilarity u v = 0) ∧
      (-1 ≤ insightCosineSimilarity u v ∧ insightCosineSimilarity u v ≤ 1)) ∧
    (∀ p q : List ℚ, p.length = q.length →
      computeCosineSimilarity p q = some (dotQ p q)) := by
  constructor
  · intro u v hlen
    have htake : v.take u.length = v := by rw [hlen, List.take_length]
    rw [insightCosineSimilarity, htake]
    refine ⟨fun h => ?_, fun h => ?_, ?_⟩
    · rw [if_neg (by tauto)]
    · rw [if_pos h]
    · by_cases hz : sumSqR u = 0 ∨ sumSqR v = 0
      · rw [if_pos hz]; norm_num
      · rw [if_neg hz]
        push_neg at hz
        have h1 : 0 < sumSqR u := lt_of_le_of_ne (sumSqR_nonneg u) (Ne.symm hz.1)
        have h2 : 0 < sumSqR v := lt_of_le_of_ne (sumSqR_nonneg v) (Ne.symm hz.2)
        have hs : 0 < Real.sqrt (sumSqR u) * Real.sqrt (sumSqR v) :=
          mul_pos (Real.sqrt_pos.mpr h1) (Real.sqrt_pos.mpr h2)
        have hcs := dotR_sq_le u v
        have habs : |dotR u v| ≤ Real.sqrt (sumSqR u) * Real.sqrt (sumSqR v) := by
          rw [← Real.sqrt_mul (sumSqR_nonneg u), ← Real.sqrt_sq_eq_abs]
          exact Real.sqrt_le_sqrt (by nlinarith [hcs])
        have hdiv : |dotR u v / (Real.sqrt (sumSqR u) * Real.sqrt (sumSqR v))| ≤ 1 := by
          rw [abs_div, abs_of_pos hs]
          exact (div_le_one hs).mpr habs
        exact abs_le.mp hdiv
  · intro p q hlen
    exact computeCosineSimilarity_of_le p q (le_of_eq hlen)

/-- Witness for the amended C2 at `u = v = [1]` over ℝ and `p = q = [1]`
over ℚ. -/
theorem C2_amended_similarity_scores_witness :
    insightCosineSimilarity [(1 : ℝ)] [1] =
      dotR [(1 : ℝ)] [1] /
        (Real.sqrt (sumSqR [(1 : ℝ)]) * Real.sqrt (sumSqR [(1 : ℝ)])) ∧
    (-1 ≤ insightCosineSimilarity [(1 : ℝ)] [1] ∧
      insightCosineSimilarity [(1 : ℝ)] [1] ≤ 1) ∧
    computeCosineSimilarity [(1 : ℚ)] [1] = some (dotQ [(1 : ℚ)] [1]) :=
  ⟨(C2_amended_similarity_scores.1 [(1 : ℝ)] [1] rfl).1
      ⟨by norm_num [sumSqR], by norm_num [sumSqR]⟩,
   (C2_amended_similarity_scores.1 [(1 : ℝ)] [1] rfl).2.2,
   C2_amended_similarity_scores.2 [(1 : ℚ)] [1] rfl⟩

/-! ## C1: the one-to-one matching invariant -/

/-- The non-sentinel labels of a result list, in order. -/
def nonSentinelLabels (rs : List MatchResult) : List String :=
  (rs.map (fun r => r.label)).filter (fun l => !(l == unmatchedLabel))

lemma scanDescriptors_best (q : List ℚ) (lab : String) (idx : Nat)
    (ds : List (List ℚ)) :
    ∀ st, (scanDescriptors q lab idx st ds).2 = st.2 ∨
      (scanDescriptors q lab idx st ds).2 = some (lab, idx) := by
  induction ds with
  | nil => intro st; exact Or.inl rfl
  | cons d rest ih =>
    intro st
    have hstep : scanDescriptors q lab idx st (d :: rest) =
        scanDescriptors q lab idx
          (match computeCosineSimilarity q d with
           | some s => if st.1 < s then (s, some (lab, idx)) else st
           | none => st) rest := rfl
    rcases hsim : computeCosineSimilarity q d with _ | s
    · have heq : scanDescriptors q lab idx st (d :: rest) =
          scanDescriptors q lab idx st rest := by rw [hstep, hsim]
      rw [heq]; exact ih st
    · by_cases hlt : st.1 < s
      · have heq : scanDescriptors q lab idx st (d :: rest) =
            scanDescriptors q lab idx (s, some (lab, idx)) rest := by
          rw [hstep, hsim]; simp [hlt]
        rw [heq]
        rcases ih (s, some (lab, idx)) with h | h
        · exact Or.inr h
        · exact Or.inr h
      · have heq : scanDescriptors q lab idx st (d :: rest) =
            scanDescriptors q lab idx st rest := by
          rw [hstep, hsim]; simp [hlt]
        rw [heq]; exact ih st

lemma findBestFrom_best (q : List ℚ) :
    ∀ (avail : List LabeledDescriptors) (i : Nat) (st : ℚ × Option (String × Nat)),
      (findBestFrom q i st avail).2 = st.2 ∨
      ∃ j, ∃ hj : j < avail.length,
        (findBestFrom q i st avail).2 = some ((avail.get ⟨j, hj⟩).label, i + j) := by
  intro avail
  induction avail with
  | nil => intro i st; exact Or.inl rfl
  | cons ld rest ih =>
    intro i st
    rw [findBestFrom]
    rcases ih (i + 1) (scanDescriptors q ld.label i st ld.descriptors) with h | ⟨j, hj, h⟩
    · rcases scanDescriptors_best q ld.label i ld.descriptors st with h' | h'
      · exact Or.inl (h.trans h')
      · refine Or.inr ⟨0, by simp, ?_⟩
        rw [h, h']
        simp
    · refine Or.inr ⟨j + 1, by simpa using hj, ?_⟩
      rw [h]
      have : i + (j + 1) = i + 1 + j := by omega
      simp [this]

lemma findBestAvailable_best (q : List ℚ) (avail : List LabeledDescriptors)
    (s : ℚ) (lab : String) (idx : Nat)
    (h : findBestAvailable q avail = (s, some (lab, idx))) :
    ∃ hj : idx < avail.length, (avail.get ⟨idx, hj⟩).label = lab := by
  rcases findBestFrom_best q avail 0 (-1, none) with h' | ⟨j, hj, h'⟩
  · rw [findBestAvailable] at h
    rw [h] at h'
    simp at h'
  · rw [findBestAvailable] at h
    rw [h] at h'
    simp at h'
    rcases h' with ⟨hlab, hidx⟩
    subst hidx
    exact ⟨hj, hlab.symm⟩

lemma map_eraseIdx {α β : Type} (f : α → β) :
    ∀ (l : List α) (i : Nat), (l.eraseIdx i).map f = (l.map f).eraseIdx i := by
  intro l
  induction l with
  | nil => intro i; simp
  | cons a rest ih =>
    intro i
    cases i with
    | zero => simp [List.eraseIdx]
    | succ n => simp [List.eraseIdx, ih n]

lemma nodup_get_not_mem_eraseIdx {α : Type} :
    ∀ (l : List α) (i : Nat) (h : i < l.length), l.Nodup →
      l.get ⟨i, h⟩ ∉ l.eraseIdx i := by
  intro l
  induction l with
  | nil => intro i h; simp at h
  | cons a rest ih =>
    intro i h hnd
    cases i with
    | zero => simpa [List.eraseIdx] using (List.nodup_cons.mp hnd).1
    | succ n =>
      intro hmem
      have hn : n < rest.length := by simpa using h
      rw [List.eraseIdx] at hmem
      rcases List.mem_cons.mp hmem with he | hmem'
      · have hin : rest.get ⟨n, hn⟩ ∈ rest := List.get_mem rest n hn
        rw [List.get_cons_succ] at he
        exact (List.nodup_cons.mp hnd).1 (he ▸ hin)
      · rw [List.get_cons_succ] at hmem'
        exact ih n hn (List.nodup_cons.mp hnd).2 hmem'

lemma matchLoop_labels (descs : List (List ℚ)) :
    ∀ avail : List LabeledDescriptors,
      (avail.map (fun ld => ld.label)).Nodup →
      (∀ r ∈ matchLoop descs avail, r.label ≠ unmatchedLabel →
        r.label ∈ avail.map (fun ld => ld.label)) ∧
      (nonSentinelLabels (matchLoop descs avail)).Nodup := by
  induction descs with
  | nil => intro avail _; refine ⟨by simp [matchLoop], by simp [matchLoop, nonSentinelLabels]⟩
  | cons q rest ih =>
    intro avail hnd
    rcases hb : findBestAvailable q avail with ⟨s, b⟩
    cases b with
    | none =>
      have ihr := ih avail hnd
      constructor
      · intro r hr hlab
        rw [matchLoop, hb] at hr
        rcases List.mem_cons.mp hr with he | hr'
        · rw [he] at hlab; simp at hlab
        · exact ihr.1 r hr' hlab
      · rw [matchLoop, hb]
        simpa [nonSentinelLabels, unmatchedLabel] using ihr.2
    | some p =>
      rcases p with ⟨lab, idx⟩
      rcases findBestAvailable_best q avail s lab idx hb with ⟨hj, hlab⟩
      have hnd' : ((avail.eraseIdx idx).map (fun ld => ld.label)).Nodup := by
        rw [map_eraseIdx]
        exact List.Nodup.sublist (List.eraseIdx_sublist _ idx) hnd
      have ihr := ih (avail.eraseIdx idx) hnd'
      have hlab_mem : lab ∈ avail.map (fun ld => ld.label) :=
        hlab ▸ List.mem_map_of_mem _ (List.get_mem avail idx hj)
      have hsub : ∀ x, x ∈ (avail.eraseIdx idx).map (fun ld => ld.label) →
          x ∈ avail.map (fun ld => ld.label) := by
        intro x hx
        exact (List.Sublist.map (fun ld => ld.label)
          (List.eraseIdx_sublist avail idx)).mem hx
      have hlab_not_tail : lab ∉ (avail.eraseIdx idx).map (fun ld => ld.label) := by
        rw [map_eraseIdx]
        have hjm : idx < (avail.map (fun ld => ld.label)).length := by simpa using hj
        have hget : (avail.map (fun ld => ld.label)).get ⟨idx, hjm⟩ = lab := by
          simp only [List.get_eq_getElem, List.getElem_map]
          simpa using hlab
        exact hget ▸ nodup_get_not_mem_eraseIdx _ idx hjm hnd
      constructor
      · intro r hr hlabne
        rw [matchLoop, hb] at hr
        rcases List.mem_cons.mp hr with he | hr'
        · rw [he]
          exact hlab_mem
        · exact hsub _ (ihr.1 r hr' hlabne)
      · rw [matchLoop, hb]
        by_cases hsent : lab = unmatchedLabel
        · simpa [nonSentinelLabels, hsent] using ihr.2
        · have hfilter : nonSentinelLabels
              (⟨lab, s, q⟩ :: matchLoop rest (avail.eraseIdx idx)) =
              lab :: nonSentinelLabels (matchLoop rest (avail.eraseIdx idx)) := by
            simp [nonSentinelLabels, hsent]
          rw [hfilter, List.nodup_cons]
          refine ⟨?_, ihr.2⟩
          intro hlabmem
          rcases List.mem_filter.mp hlabmem with ⟨hmem, _⟩
          rcases List.mem_map.mp hmem with ⟨r, hr, hrl⟩
          exact hlab_not_tail (hrl ▸ ihr.1 r hr (by rw [hrl]; exact hsent))

/-- Counterexample to C1: with a gallery containing two entries that share
the label `"A"` and the sentinel string in the initial used-label set, the
matcher emits two distinct results with the same non-sentinel label `"A"`
and a result whose label (`"unknown"`) is in the initial used-label set. -/
theorem C1_counterexample :
    ¬ (nonSentinelLabels (findBestMatchesForFrame [[1], [2], [1]]
        [⟨"A", [[1]]⟩, ⟨"A", [[2]]⟩] ["unknown"])).Nodup ∧
    ∃ r ∈ findBestMatchesForFrame [[1], [2], [1]]
        [⟨"A", [[1]]⟩, ⟨"A", [[2]]⟩] ["unknown"], r.label ∈ ["unknown"] := by
  have heval : findBestMatchesForFrame [[1], [2], [1]]
      [⟨"A", [[1]]⟩, ⟨"A", [[2]]⟩] ["unknown"] =
      [⟨"A", 2, [1]⟩, ⟨"A", 2, [2]⟩, ⟨"unknown", 0, [1]⟩] := by
    norm_num [findBestMatchesForFrame, matchLoop, findBestAvailable, findBestFrom,
      scanDescriptors, computeCosineSimilarity, unmatchedLabel, List.eraseIdx]
  rw [heval]
  constructor
  · simp [nonSentinelLabels, unmatchedLabel]
  · exact ⟨⟨"unknown", 0, [1]⟩, by simp, by simp⟩

/-- C1 as amended: provided the gallery labels are pairwise distinct (the
data-model invariant), a frame-level matching run emits no two results
sharing the same non-sentinel label, and no result carries a non-sentinel
label from the initial used-label set.  (As stated, the claim fails both
for galleries with duplicate labels and for the sentinel itself, which can
appear even when listed as used — see the counterexample.) -/
theorem C1_amended_one_to_one (descriptors : List (List ℚ))
    (gallery : List LabeledDescriptors) (usedLabels : List String)
    (hnodup : (gallery.map (fun ld => ld.label)).Nodup) :
    (nonSentinelLabels
        (findBestMatchesForFrame descriptors gallery usedLabels)).Nodup ∧
    (∀ r ∈ findBestMatchesForFrame descriptors gallery usedLabels,
      r.label ≠ unmatchedLabel → r.label ∉ usedLabels) := by
  have havail : ((gallery.filter
      (fun ld => !(usedLabels.contains ld.label))).map
        (fun ld => ld.label)).Nodup :=
    List.Nodup.sublist (List.Sublist.map _ (List.filter_sublist gallery)) hnodup
  have hmain := matchLoop_labels descriptors _ havail
  refine ⟨hmain.2, ?_⟩
  intro r hr hlab hmem
  have hin := hmain.1 r hr hlab
  rcases List.mem_map.mp hin with ⟨ld, hld, heq⟩
  have hpred := List.of_mem_filter hld
  simp at hpred
  exact hpred (heq ▸ hmem)

/-- Witness for the amended C1: a singleton gallery with a distinct label,
one detection, and a used set excluding an unrelated label. -/
theorem C1_amended_one_to_one_witness :
    (nonSentinelLabels
        (findBestMatchesForFrame [[1]] [⟨"A", [[1]]⟩] ["B"])).Nodup ∧
    (∀ r ∈ findBestMatchesForFrame [[1]] [⟨"A", [[1]]⟩] ["B"],
      r.label ≠ unmatchedLabel → r.label ∉ ["B"]) :=
  C1_amended_one_to_one [[1]] [⟨"A", [[1]]⟩] ["B"] (by simp)

/-! ## C9: the Temporal Aggregator window -/

/-- Modelled from the spec: the Temporal Aggregator of §4.4 has no
implementation under `src/` (the README's "100-frame confidence analysis"
button has no corresponding engine code there), so its rolling window is
modelled from the spec's words: the window holds the last `N` per-frame
Match Result sets (fewer while filling, oldest first), and pushing a new
frame's results when the window is full evicts the oldest frame (FIFO). -/
def pushFrame (N : Nat) (window : List (List MatchResult))
    (f : List MatchResult) : List (List MatchResult) :=
  if window.length < N then window ++ [f] else window.tail ++ [f]

/-- Modelled from the spec: one Aggregated Verdict (§3). -/
structure Verdict where
  label : String
  observedFrameCount : Nat
  windowFrameCount : Nat
  meanScore : ℚ
  present : Bool
deriving DecidableEq, Repr

/-- Modelled from the spec: the verdict computation of §4.4 — for each
non-sentinel label observed in the window, count the frames in which it
was matched, average its scores over those frames, and set
`present = (observedFrameCount / windowFrameCount) ≥ T`. -/
def computeVerdicts (T : ℚ) (frames : List (List MatchResult)) : List Verdict :=
  let labels := (((frames.map (fun fr => fr.map (fun r => r.label))).flatten).filter
    (fun l => !(l == unmatchedLabel))).dedup
  labels.map (fun l =>
    let matched := frames.filter (fun fr => fr.any (fun r => r.label == l))
    let scores := matched.map (fun fr =>
      ((fr.filter (fun r => r.label == l)).map (fun r => r.score)).sum)
    { label := l
      observedFrameCount := matched.length
      windowFrameCount := frames.length
      meanScore := if matched.length = 0 then 0 else scores.sum / matched.length
      present := decide (T ≤ (matched.length : ℚ) / (frames.length : ℚ)) })

/-- C9: pushing a frame into a full window of size `N` evicts exactly the
oldest frame, and the evicted frame contributes nothing to any subsequent
verdict computation (replacing it by any other frame leaves every verdict
unchanged). -/
theorem C9_window_eviction_fifo (N : Nat) (T : ℚ)
    (f1 f1' f : List MatchResult) (rest : List (List MatchResult))
    (hfull : (f1 :: rest).length = N) :
    pushFrame N (f1 :: rest) f = rest ++ [f] ∧
    computeVerdicts T (pushFrame N (f1 :: rest) f) =
      computeVerdicts T (pushFrame N (f1' :: rest) f) := by
  have hlen : ¬((f1 :: rest).length < N) := by omega
  have hlen' : ¬((f1' :: rest).length < N) := by
    simp only [List.length_cons] at hfull ⊢
    omega
  have h1 : pushFrame N (f1 :: rest) f = rest ++ [f] := by
    rw [pushFrame, if_neg hlen, List.tail_cons]
  have h2 : pushFrame N (f1' :: rest) f = rest ++ [f] := by
    rw [pushFrame, if_neg hlen', List.tail_cons]
  exact ⟨h1, by rw [h1, h2]⟩

/-- Witness for C9: a full window of size 5 whose oldest frame observed
`"A"`; after the push, the verdicts agree with those of the window whose
oldest frame observed `"B"` instead. -/
theorem C9_window_eviction_fifo_witness :
    pushFrame 5 [[⟨"A", 1, []⟩], [], [], [], []] [] =
      [[], [], [], []] ++ [[]] ∧
    computeVerdicts (3/5) (pushFrame 5 [[⟨"A", 1, []⟩], [], [], [], []] []) =
      computeVerdicts (3/5) (pushFrame 5 [[⟨"B", 1, []⟩], [], [], [], []] []) :=
  C9_window_eviction_fifo 5 (3/5) [⟨"A", 1, []⟩] [⟨"B", 1, []⟩] []
    [[], [], [], []] rfl

end ClassroomRecognizer
